import Mathlib

/-!
Shallow embedding of `analysis_by_synthesis/architecture.py`.

Scalars are modelled as real numbers; a tensor is its shape together with a
flat row-major data list.  The convolutional layer stacks of the encoders and
decoders are modelled as abstract functions (fields of the module structures):
their specific linear algebra plays no role in any verified property, while the
operations the properties depend on (sigmoid, exp, stack, transpose, negation,
detach, the reparameterization formula, the assert, parameter-list aggregation
and the constructor control flow) are modelled concretely from the source.
Python object identity of `nn.Parameter` objects is modelled by `Nat` ids;
Python runtime failures (TypeError on a missing required argument, a failing
`assert`, a `torch.stack` shape mismatch) are modelled with `Except`.
-/

namespace AbsSynth

/-- A torch tensor: its shape and its flat row-major data. -/
structure Tensor where
  shape : List ℕ
  data : List ℝ

/-- Rank accessor modelling `t.dim()`: the number of axes. -/
def Tensor.dim (t : Tensor) : ℕ := t.shape.length

/-- Elementwise map, preserving the shape. -/
def Tensor.emap (f : ℝ → ℝ) (t : Tensor) : Tensor := ⟨t.shape, t.data.map f⟩

/-- Elementwise binary operation (used only on same-shaped tensors). -/
def Tensor.ezip (f : ℝ → ℝ → ℝ) (a b : Tensor) : Tensor :=
  ⟨a.shape, List.zipWith f a.data b.data⟩

/-- Unary minus `-t`. -/
def Tensor.neg (t : Tensor) : Tensor := t.emap (fun v => -v)

/-- Elementwise `torch.exp`. -/
noncomputable def Tensor.texp (t : Tensor) : Tensor := t.emap Real.exp

/-- Scalar multiplication, as in `0.5 * logvar`. -/
def Tensor.smul (c : ℝ) (t : Tensor) : Tensor := t.emap (fun v => c * v)

/-- Elementwise product `a.mul(b)`. -/
def Tensor.tmul (a b : Tensor) : Tensor := Tensor.ezip (fun x y => x * y) a b

/-- Elementwise sum `a.add_(b)` (value semantics: the in-place variant returns the sum). -/
def Tensor.tadd (a b : Tensor) : Tensor := Tensor.ezip (fun x y => x + y) a b

/-- Detach, `t.detach()`: detaching only severs autograd tracking; it is the identity
on the value level modelled here. -/
def Tensor.detach (t : Tensor) : Tensor := t

/-- Squashing `nn.Sigmoid`: elementwise logistic `1 / (1 + exp (-v))`. -/
noncomputable def Tensor.sigmoid (t : Tensor) : Tensor :=
  t.emap (fun v => 1 / (1 + Real.exp (-v)))

/-- Runtime errors surfaced by the embedded Python code. -/
inductive PyError where
  /-- Failure of `torch.stack` on an empty list or on tensors of unequal shapes. -/
  | stackError : PyError
  /-- a failing `assert` statement. -/
  | assertionError : PyError
  /-- calling a function without a required positional argument. -/
  | typeError : PyError
  /-- Effect of `raise NotImplementedError(msg)`. -/
  | notImplemented (msg : String) : PyError
deriving Repr, DecidableEq

/-- Stacking, `torch.stack`: concatenates equal-shaped tensors along a new leading
axis; raises on an empty list or on a shape mismatch. -/
def torchStack (ts : List Tensor) : Except PyError Tensor :=
  match ts with
  | [] => .error .stackError
  | t :: rest =>
      if rest.all (fun u => u.shape == t.shape) then
        .ok ⟨ts.length :: t.shape, (ts.map Tensor.data).flatten⟩
      else
        .error .stackError

/-- Transposition `t.transpose(0, 1)`: swaps the first two axes.  For shape
`a :: b :: rest` the entry at multi-index `(j, i, l)` of the result is the
entry at `(i, j, l)` of the input, with `l` ranging over the flattened
trailing block of size `rest.prod`. -/
def Tensor.transpose01 (t : Tensor) : Tensor :=
  match t.shape with
  | a :: b :: rest =>
      let m := rest.prod
      ⟨b :: a :: rest,
        (List.range (b * (a * m))).map (fun idx =>
          let j := idx / (a * m)
          let i := idx % (a * m) / m
          let l := idx % (a * m) % m
          t.data.getD ((i * b + j) * m + l) 0)⟩
  | _ => t

/-- A parameter object (`nn.Parameter`): identified by its Python object id. -/
abbrev ParamId := ℕ

/-- Body of `Encoder` / `ColorEncoder`: a shared convolutional trunk feeding the
two parallel heads `conv_mu` and `conv_logvar`.  The trunk and head maps are
abstract (their weights are externally initialized); `params` is the list of
the parameter objects of the module in registration order. -/
structure EncoderNet where
  shared : Tensor → Tensor
  conv_mu : Tensor → Tensor
  conv_logvar : Tensor → Tensor
  params : List ParamId

/-- Forward pass `Encoder.forward` / `ColorEncoder.forward`: run the shared trunk, then
the two heads on the shared features. -/
def EncoderNet.forward (e : EncoderNet) (x : Tensor) : Tensor × Tensor :=
  let sh := e.shared x
  (e.conv_mu sh, e.conv_logvar sh)

/-- Body of `Decoder`: the transposed-convolution stack `layers` is abstract,
the final `nn.Sigmoid` is concrete; `params` lists the parameter objects. -/
structure Decoder where
  layers : Tensor → Tensor
  params : List ParamId

/-- Forward pass `Decoder.forward`: `x = self.layers(x); return self.sigmoid(x)`. -/
noncomputable def Decoder.forward (d : Decoder) (x : Tensor) : Tensor :=
  Tensor.sigmoid (d.layers x)

/-- Body of `ColorDecoder`: same composition with the color layer stack. -/
structure ColorDecoder where
  layers : Tensor → Tensor
  params : List ParamId

/-- Forward pass `ColorDecoder.forward`: `x = self.layers(x); return self.sigmoid(x)`. -/
noncomputable def ColorDecoder.forward (d : ColorDecoder) (x : Tensor) : Tensor :=
  Tensor.sigmoid (d.layers x)

/-- The encoder submodule of a VAE: `Encoder` or `ColorEncoder` (chosen
dynamically at runtime by the `color` flag). -/
inductive EncoderModule where
  | gray (e : EncoderNet) : EncoderModule
  | color (e : EncoderNet) : EncoderModule

/-- Dispatch `self.encoder(x)`. -/
def EncoderModule.forward : EncoderModule → Tensor → Tensor × Tensor
  | .gray e, x => e.forward x
  | .color e, x => e.forward x

/-- Parameters `self.encoder.parameters()` as a list of parameter objects. -/
def EncoderModule.parameters : EncoderModule → List ParamId
  | .gray e => e.params
  | .color e => e.params

/-- The decoder submodule of a VAE: `Decoder` or `ColorDecoder`. -/
inductive DecoderModule where
  | gray (d : Decoder) : DecoderModule
  | color (d : ColorDecoder) : DecoderModule

/-- Dispatch `self.decoder(z)`. -/
noncomputable def DecoderModule.forward : DecoderModule → Tensor → Tensor
  | .gray d, z => d.forward z
  | .color d, z => d.forward z

/-- Parameters `self.decoder.parameters()` as a list of parameter objects. -/
def DecoderModule.parameters : DecoderModule → List ParamId
  | .gray d => d.params
  | .color d => d.params

/-- The `VAE` module: one encoder, one decoder, the stored latent width and
the `nn.Module` train/eval mode flag. -/
structure VAE where
  n_latents : ℕ
  training : Bool
  encoder : EncoderModule
  decoder : DecoderModule

/-- Fresh-module initializers for the four encoder/decoder classes (torch
randomly initializes the layer weights; the initializers are parameters of
the embedding). -/
structure ModuleInit where
  mkEncoder : ℕ → EncoderNet
  mkColorEncoder : ℕ → EncoderNet
  mkDecoder : ℕ → Decoder
  mkColorDecoder : ℕ → ColorDecoder

/-- Constructor `VAE.__init__(self, n_latents, color=False)`: store `n_latents` and build
the gray or color encoder/decoder pair; a fresh module starts in training
mode. -/
def VAE.make (init : ModuleInit) (n_latents : ℕ) (color : Bool) : VAE :=
  if color then
    { n_latents := n_latents, training := true,
      encoder := .color (init.mkColorEncoder n_latents),
      decoder := .color (init.mkColorDecoder n_latents) }
  else
    { n_latents := n_latents, training := true,
      encoder := .gray (init.mkEncoder n_latents),
      decoder := .gray (init.mkDecoder n_latents) }

/-- Calling the class `VAE(...)` with Python argument binding: `n_latents`
is required (no default, so a call without it raises `TypeError`), `color`
defaults to `False`. -/
def callVAE (init : ModuleInit) (n_latents? : Option ℕ) (color? : Option Bool) :
    Except PyError VAE :=
  match n_latents? with
  | none => .error .typeError
  | some n => .ok (VAE.make init n (color?.getD false))

/-- Reparameterization `VAE.reparameterize(self, mu, logvar)`.  The `torch.randn_like(std)`
draw is modelled by the explicit argument `eps` (the value the RNG would
produce); in evaluation mode it is ignored and `mu` is returned. -/
noncomputable def VAE.reparameterize (m : VAE) (eps : Tensor) (mu logvar : Tensor) :
    Tensor :=
  if m.training then
    let std := Tensor.texp (Tensor.smul (1 / 2) logvar)
    (eps.tmul std).tadd mu
  else
    mu

/-- Forward pass `VAE.forward(self, x)`: encode, reparameterize, decode. -/
noncomputable def VAE.forward (m : VAE) (eps : Tensor) (x : Tensor) :
    Tensor × Tensor × Tensor :=
  let p := m.encoder.forward x
  let z := m.reparameterize eps p.1 p.2
  (m.decoder.forward z, p.1, p.2)

/-- The `args` namespace consumed by `get_base_model`. -/
structure Args where
  base_model : String
  n_latents_per_class : ℕ

/-- The abstract result of the external `get_one_lip_model` (package
`one_lip_ae`, outside this repository). -/
structure OneLipModel where
  tag : ℕ

/-- A constructed base model: the one-Lipschitz autoencoder or a `VAE`. -/
inductive BaseModel where
  | oneLip (m : OneLipModel) : BaseModel
  | vae (v : VAE) : BaseModel

/-- Dispatcher `get_base_model(args)`: dispatch on `args.base_model`; an unrecognized
name raises `NotImplementedError` with the message naming the two valid
choices.  `get_one_lip_model` is external and passed in as `golm`. -/
def get_base_model (golm : Args → OneLipModel) (init : ModuleInit) (args : Args) :
    Except PyError BaseModel :=
  if args.base_model = "one_lip_ae" then
    .ok (.oneLip (golm args))
  else if args.base_model = "vae" then
    (callVAE init (some args.n_latents_per_class) none).map .vae
  else
    .error (.notImplemented
      ("model " ++ args.base_model ++ " is not implemented try OneLipAE or VAE"))

/-- The `ABS` module: the per-class VAEs plus the stored scalar fields and
the two aggregated parameter lists.  `logit_scale` is not a field: the line
storing it is commented out in the source. -/
structure ABS where
  beta : ℝ
  loss_f : String
  base_models : List VAE
  encoder_parameters : List ParamId
  decoder_parameters : List ParamId

/-- Constructor `ABS.__init__(self, n_classes, beta, color=False, logit_scale=1.,
base_model_f=VAE, loss_f=vae)`: build `n_classes` base models by calling
the zero-argument factory, then aggregate the flattened per-role parameter
lists.  `color` and `logit_scale` are accepted and ignored (the
`logit_scale` registration is commented out). -/
def ABS.make (n_classes : ℕ) (beta : ℝ) (color : Bool) (logit_scale : ℝ)
    (base_model_f : Unit → Except PyError VAE) (loss_f : String) :
    Except PyError ABS := do
  let base_models ← (List.range n_classes).mapM (fun _ => base_model_f ())
  .ok { beta := beta, loss_f := loss_f, base_models := base_models,
        encoder_parameters := (base_models.map (fun vae => vae.encoder.parameters)).flatten,
        decoder_parameters := (base_models.map (fun vae => vae.decoder.parameters)).flatten }

/-- The default `base_model_f=VAE`: calling the class with zero arguments
binds no value to the required `n_latents`. -/
def defaultBaseModelF (init : ModuleInit) : Unit → Except PyError VAE :=
  fun _ => callVAE init none none

/-- Per-class outputs `outputs = [base_model(x) for base_model in self.base_models]`, with the
RNG stream `noise` supplying the `randn_like` draw of the k-th model. -/
noncomputable def ABS.outputs (noise : ℕ → Tensor) (m : ABS) (x : Tensor) :
    List (Tensor × Tensor × Tensor) :=
  m.base_models.mapIdx (fun k bm => bm.forward (noise k) x)

/-- The signature of the external `samplewise_loss_function(x, recs, mus,
logvars, beta, loss_f)` from `loss_functions.py` (outside this file). -/
abbrev LossFn := Tensor → Tensor → Tensor → Tensor → ℝ → String → Tensor

/-- Per-class losses `losses = [samplewise_loss_function(x, recs.detach(), mus.detach(),
logvars.detach(), self.beta, loss_f=self.loss_f) for recs, mus, logvars in
outputs]`: the comprehension rebinds `recs, mus, logvars` to the per-class
(unstacked) outputs. -/
noncomputable def ABS.losses (slf : LossFn) (noise : ℕ → Tensor) (m : ABS)
    (x : Tensor) : List Tensor :=
  (ABS.outputs noise m x).map (fun o =>
    slf x o.1.detach o.2.1.detach o.2.2.detach m.beta m.loss_f)

/-- Forward pass `ABS.forward(self, x)`: run every class VAE, stack their outputs, score
each class with the detached per-class outputs, stack the losses, assert the
stacked loss tensor is rank 2, and return the negated transpose as logits
together with the stacked outputs. -/
noncomputable def ABS.forward (slf : LossFn) (noise : ℕ → Tensor) (m : ABS)
    (x : Tensor) : Except PyError (Tensor × Tensor × Tensor × Tensor) := do
  let outputs := ABS.outputs noise m x
  let recs ← torchStack (outputs.map (fun o => o.1))
  let mus ← torchStack (outputs.map (fun o => o.2.1))
  let logvars ← torchStack (outputs.map (fun o => o.2.2))
  let lossesT ← torchStack (ABS.losses slf noise m x)
  if lossesT.dim = 2 then
    .ok (Tensor.neg (lossesT.transpose01), recs, mus, logvars)
  else
    .error .assertionError

/-- Parameters `vae.parameters()` for a class VAE: the encoder parameters followed
by the decoder parameters, in submodule registration order. -/
def VAE.parameters (v : VAE) : List ParamId :=
  v.encoder.parameters ++ v.decoder.parameters

/-- The full parameter set of all class VAEs combined. -/
def ABS.allParameters (m : ABS) : List ParamId :=
  (m.base_models.map VAE.parameters).flatten

/-! ### Concrete fixtures for witnesses -/

/-- A concrete encoder body whose trunk and heads are the identity. -/
def encNet0 : EncoderNet := ⟨fun t => t, fun t => t, fun t => t, [0, 1]⟩

/-- A concrete decoder body whose layer stack is the identity. -/
def dec0 : Decoder := ⟨fun t => t, [2, 3]⟩

/-- A concrete color decoder body whose layer stack is the identity. -/
def colorDec0 : ColorDecoder := ⟨fun t => t, [4, 5]⟩

/-- Concrete module initializers. -/
def init0 : ModuleInit := ⟨fun _ => encNet0, fun _ => encNet0, fun _ => dec0, fun _ => colorDec0⟩

/-- A concrete VAE in evaluation mode. -/
def vaeEval : VAE := ⟨8, false, .gray encNet0, .gray dec0⟩

/-- A concrete VAE in training mode. -/
def vaeTrain : VAE := ⟨8, true, .gray encNet0, .gray dec0⟩

/-- A factory returning the fixed evaluation-mode VAE. -/
def factory0 : Unit → Except PyError VAE := fun _ => .ok vaeEval

/-- The ABS instance built from `factory0` with one class. -/
def abs0 : ABS :=
  { beta := 0, loss_f := "vae", base_models := [vaeEval],
    encoder_parameters := [0, 1], decoder_parameters := [2, 3] }

/-! ### List helper lemmas -/

/-- Entry of a `zipWith` at an in-bounds index, via `getD`. -/
theorem getD_zipWith (f : ℝ → ℝ → ℝ) (a b : List ℝ) (i : ℕ) (d : ℝ)
    (ha : i < a.length) (hb : i < b.length) :
    (List.zipWith f a b).getD i d = f (a.getD i d) (b.getD i d) := by
  induction a generalizing b i with
  | nil => simp at ha
  | cons x xs ih =>
    cases b with
    | nil => simp at hb
    | cons y ys =>
      cases i with
      | zero => simp
      | succ j =>
        simp only [List.zipWith_cons_cons, List.getD_cons_succ]
        exact ih ys j (by simpa using ha) (by simpa using hb)

/-- Entry of a `map` at an in-bounds index, via `getD`. -/
theorem getD_map (g : ℝ → ℝ) (l : List ℝ) (i : ℕ) (d d' : ℝ) (h : i < l.length) :
    (l.map g).getD i d = g (l.getD i d') := by
  rw [List.getD_eq_getElem _ _ (by simpa using h), List.getD_eq_getElem _ _ h]
  simp

/-- Entry of a function mapped over `List.range` at an in-bounds index. -/
theorem getD_range_map (g : ℕ → ℝ) (n i : ℕ) (d : ℝ) (h : i < n) :
    ((List.range n).map g).getD i d = g i := by
  rw [List.getD_eq_getElem _ _ (by simpa using h)]
  simp

/-- Entry of the flattening of equal-length blocks. -/
theorem getD_flatten_blocks (L : List (List ℝ)) (B : ℕ)
    (hB : ∀ l ∈ L, l.length = B) (k b : ℕ) (hk : k < L.length) (hb : b < B) :
    L.flatten.getD (k * B + b) 0 = (L.getD k []).getD b 0 := by
  induction L generalizing k with
  | nil => simp at hk
  | cons l L ih =>
    have hl : l.length = B := hB l (by simp)
    cases k with
    | zero =>
      rw [List.flatten_cons]
      simpa using List.getD_append l L.flatten 0 b (by omega)
    | succ k' =>
      rw [List.flatten_cons]
      have hidx : (k' + 1) * B + b = l.length + (k' * B + b) := by rw [hl]; ring
      rw [hidx, List.getD_append_right l L.flatten 0 _ (by omega)]
      simp only [Nat.add_sub_cancel_left, List.getD_cons_succ]
      exact ih (fun u hu => hB u (by simp [hu])) k' (by simpa using hk)

/-- Bind on a successful `Except` computation applies the continuation. -/
theorem except_bind_ok {α β : Type} (a : α) (f : α → Except PyError β) :
    (Except.ok a >>= f) = f a := rfl

/-- Bind on a failed `Except` computation propagates the error. -/
theorem except_bind_error {α β : Type} (e : PyError) (f : α → Except PyError β) :
    ((Except.error e : Except PyError α) >>= f) = .error e := rfl

/-- Mapping a constantly-failing monadic function over a nonempty list
fails. -/
theorem mapM_const_error {α β : Type} (l : List α) (hl : l ≠ []) (e : PyError) :
    l.mapM (fun _ => (Except.error e : Except PyError β)) = .error e := by
  cases l with
  | nil => exact absurd rfl hl
  | cons a l => rw [List.mapM_cons]; rfl

/-- Flattened per-role lists recombine, up to permutation, into the
flattened list of per-item concatenations. -/
theorem flatten_map_append_perm {α β : Type} (l : List α) (f g : α → List β) :
    List.Perm ((l.map f).flatten ++ (l.map g).flatten)
      ((l.map (fun a => f a ++ g a)).flatten) := by
  induction l with
  | nil => simp
  | cons a l ih =>
    simp only [List.map_cons, List.flatten_cons]
    calc
      List.Perm ((f a ++ (l.map f).flatten) ++ (g a ++ (l.map g).flatten))
        (f a ++ ((l.map f).flatten ++ (g a ++ (l.map g).flatten))) := by
          rw [List.append_assoc]
      List.Perm _ (f a ++ (g a ++ ((l.map f).flatten ++ (l.map g).flatten))) :=
        List.Perm.append_left _ (List.perm_append_comm_assoc _ _ _)
      List.Perm _ ((f a ++ g a) ++ ((l.map f).flatten ++ (l.map g).flatten)) := by
        rw [List.append_assoc]
      List.Perm _ ((f a ++ g a) ++ (l.map (fun a => f a ++ g a)).flatten) :=
        List.Perm.append_left _ ih

/-! ### Claim theorems -/

/-- C3: in evaluation mode (`training = false`), `VAE.reparameterize`
returns `mu` without sampling, and `VAE.forward` does not depend on the
random draw: two calls with the same parameters and input agree. -/
theorem vae_eval_deterministic (m : VAE) (h : m.training = false) :
    (∀ eps mu logvar : Tensor, m.reparameterize eps mu logvar = mu) ∧
    (∀ eps₁ eps₂ x : Tensor, m.forward eps₁ x = m.forward eps₂ x) := by
  refine ⟨fun eps mu logvar => ?_, fun eps₁ eps₂ x => ?_⟩
  · simp [VAE.reparameterize, h]
  · simp [VAE.forward, VAE.reparameterize, h]

/-- Witness for C3 at a concrete evaluation-mode VAE and two distinct draws. -/
theorem vae_eval_deterministic_witness :
    vaeEval.training = false ∧
    vaeEval.forward ⟨[1], [5]⟩ ⟨[1], [7]⟩ = vaeEval.forward ⟨[1], [6]⟩ ⟨[1], [7]⟩ :=
  ⟨rfl, (vae_eval_deterministic vaeEval rfl).2 ⟨[1], [5]⟩ ⟨[1], [6]⟩ ⟨[1], [7]⟩⟩

/-- C4: in training mode, `VAE.reparameterize(mu, logvar)` with the fixed
noise draw `eps` returns, elementwise, `eps * exp (0.5 * logvar) + mu`. -/
theorem vae_reparameterize_training (m : VAE) (h : m.training = true)
    (eps mu logvar : Tensor) (i : ℕ) (hie : i < eps.data.length)
    (hil : i < logvar.data.length) (him : i < mu.data.length) :
    (m.reparameterize eps mu logvar).data.getD i 0 =
      eps.data.getD i 0 * Real.exp (1 / 2 * logvar.data.getD i 0) +
        mu.data.getD i 0 := by
  simp only [VAE.reparameterize, h, if_true, Tensor.tadd, Tensor.tmul,
    Tensor.ezip, Tensor.texp, Tensor.smul, Tensor.emap]
  rw [getD_zipWith _ _ _ _ _ (by simp [List.length_zipWith]; omega)
      (by omega),
    getD_zipWith _ _ _ _ _ (by omega) (by simpa using hil),
    getD_map _ _ _ _ 0 (by simpa using hil),
    getD_map _ _ _ _ 0 hil]

/-- Witness for C4: `eps = 2`, `logvar = 0`, `mu = 3` gives `2·exp 0 + 3`. -/
theorem vae_reparameterize_training_witness :
    (vaeTrain.reparameterize ⟨[1], [2]⟩ ⟨[1], [3]⟩ ⟨[1], [0]⟩).data.getD 0 0 =
      2 * Real.exp (1 / 2 * 0) + 3 :=
  vae_reparameterize_training vaeTrain rfl ⟨[1], [2]⟩ ⟨[1], [3]⟩ ⟨[1], [0]⟩ 0
    (by simp) (by simp) (by simp)

/-- C5: `get_base_model` raises `NotImplementedError` naming the choices
`OneLipAE` and `VAE` on every unrecognized kind, and no error on the two
supported kinds. -/
theorem get_base_model_dispatch (golm : Args → OneLipModel) (init : ModuleInit)
    (s : String) (n : ℕ) (h1 : s ≠ "one_lip_ae") (h2 : s ≠ "vae") :
    get_base_model golm init ⟨s, n⟩ =
      .error (.notImplemented
        ("model " ++ s ++ " is not implemented try OneLipAE or VAE")) ∧
    (∃ b, get_base_model golm init ⟨"one_lip_ae", n⟩ = .ok b) ∧
    (∃ b, get_base_model golm init ⟨"vae", n⟩ = .ok b) := by
  refine ⟨?_, ⟨.oneLip (golm ⟨"one_lip_ae", n⟩), ?_⟩,
    ⟨.vae (VAE.make init n false), ?_⟩⟩
  · simp [get_base_model, h1, h2]
  · simp [get_base_model]
  · simp [get_base_model, callVAE, Except.map]

/-- Witness for C5 at the `unknown_model` kind named in the spec. -/
theorem get_base_model_dispatch_witness :
    get_base_model (fun _ => ⟨0⟩) init0 ⟨"unknown_model", 4⟩ =
      .error (.notImplemented
        ("model " ++ "unknown_model" ++ " is not implemented try OneLipAE or VAE")) ∧
    (∃ b, get_base_model (fun _ => ⟨0⟩) init0 ⟨"one_lip_ae", 4⟩ = .ok b) ∧
    (∃ b, get_base_model (fun _ => ⟨0⟩) init0 ⟨"vae", 4⟩ = .ok b) :=
  get_base_model_dispatch (fun _ => ⟨0⟩) init0 ("unknown_model") 4
    (by decide) (by decide)

/-- C9: the `logit_scale` construction argument is inert: two constructions
differing only in `logit_scale` produce the same `ABS` value, and hence
`ABS.forward` returns identical `(logits, recs, mus, logvars)`. -/
theorem logit_scale_inert (n : ℕ) (beta : ℝ) (color : Bool) (s₁ s₂ : ℝ)
    (f : Unit → Except PyError VAE) (lf : String) (slf : LossFn)
    (noise : ℕ → Tensor) (x : Tensor) :
    ABS.make n beta color s₁ f lf = ABS.make n beta color s₂ f lf ∧
    (ABS.make n beta color s₁ f lf).map (fun m => ABS.forward slf noise m x) =
      (ABS.make n beta color s₂ f lf).map (fun m => ABS.forward slf noise m x) :=
  ⟨rfl, rfl⟩

/-- C10: with the default `base_model_f=VAE`, the zero-argument call leaves
the required `n_latents` unbound, so `ABS.__init__` raises `TypeError` for
every `n_classes ≥ 1`. -/
theorem abs_default_factory_fails (init : ModuleInit) (n : ℕ) (hn : 1 ≤ n)
    (beta : ℝ) (color : Bool) (ls : ℝ) (lf : String) :
    ABS.make n beta color ls (defaultBaseModelF init) lf = .error .typeError := by
  have h := mapM_const_error (β := VAE) (List.range n)
    (by simp [List.range_eq_nil]; omega) PyError.typeError
  simp only [ABS.make, defaultBaseModelF, callVAE]
  rw [h]
  rfl

/-- Witness for C10 at `n_classes = 1`. -/
theorem abs_default_factory_fails_witness :
    ABS.make 1 0 false 1 (defaultBaseModelF init0) "vae" = .error .typeError :=
  abs_default_factory_fails init0 1 (by decide) 0 false 1 ("vae")

/-- Every entry of an elementwise sigmoid lies in `[0, 1]`. -/
theorem sigmoid_data_bounded (t : Tensor) :
    ∀ v ∈ (Tensor.sigmoid t).data, 0 ≤ v ∧ v ≤ 1 := by
  intro v hv
  simp only [Tensor.sigmoid, Tensor.emap, List.mem_map] at hv
  obtain ⟨w, _, rfl⟩ := hv
  have h1 : (0 : ℝ) < 1 + Real.exp (-w) := by positivity
  refine ⟨by positivity, ?_⟩
  rw [div_le_one h1]
  linarith [Real.exp_pos (-w)]

/-- C6: for every latent input and both architecture variants, every element
of the decoder output lies in `[0, 1]`, since the final layer is the
sigmoid squashing function. -/
theorem decoder_output_in_unit_interval (d : Decoder) (cd : ColorDecoder)
    (x : Tensor) :
    (∀ v ∈ (d.forward x).data, 0 ≤ v ∧ v ≤ 1) ∧
    (∀ v ∈ (cd.forward x).data, 0 ≤ v ∧ v ≤ 1) :=
  ⟨fun v hv => sigmoid_data_bounded (d.layers x) v hv,
   fun v hv => sigmoid_data_bounded (cd.layers x) v hv⟩

/-- Witness for C6 at the identity layer stacks and input `[0]`: the output
entry `1 / (1 + exp (-0))` is produced by both variants and is in `[0, 1]`. -/
theorem decoder_output_in_unit_interval_witness :
    (1 / (1 + Real.exp (-(0 : ℝ))) ∈ (dec0.forward ⟨[1], [0]⟩).data ∧
      0 ≤ 1 / (1 + Real.exp (-(0 : ℝ))) ∧ 1 / (1 + Real.exp (-(0 : ℝ))) ≤ 1) ∧
    (1 / (1 + Real.exp (-(0 : ℝ))) ∈ (colorDec0.forward ⟨[1], [0]⟩).data ∧
      0 ≤ 1 / (1 + Real.exp (-(0 : ℝ))) ∧ 1 / (1 + Real.exp (-(0 : ℝ))) ≤ 1) := by
  have hm : 1 / (1 + Real.exp (-(0 : ℝ))) ∈ (dec0.forward ⟨[1], [0]⟩).data := by
    simp [dec0, Decoder.forward, Tensor.sigmoid, Tensor.emap]
  have hm' : 1 / (1 + Real.exp (-(0 : ℝ))) ∈ (colorDec0.forward ⟨[1], [0]⟩).data := by
    simp [colorDec0, ColorDecoder.forward, Tensor.sigmoid, Tensor.emap]
  exact ⟨⟨hm, (decoder_output_in_unit_interval dec0 colorDec0 ⟨[1], [0]⟩).1 _ hm⟩,
    ⟨hm', (decoder_output_in_unit_interval dec0 colorDec0 ⟨[1], [0]⟩).2 _ hm'⟩⟩

/-- C7: for an ABS instance whose parameter objects are distinct (fresh
module construction), `encoder_parameters` and `decoder_parameters` are
disjoint and together are a permutation of the full parameter set of all
class VAEs combined. -/
theorem abs_parameter_partition (n : ℕ) (beta : ℝ) (color : Bool) (ls : ℝ)
    (f : Unit → Except PyError VAE) (lf : String) (m : ABS)
    (hmk : ABS.make n beta color ls f lf = .ok m)
    (hfresh : m.allParameters.Nodup) :
    m.encoder_parameters.Disjoint m.decoder_parameters ∧
    List.Perm (m.encoder_parameters ++ m.decoder_parameters) m.allParameters := by
  obtain ⟨bms, hbms, hm⟩ :
      ∃ bms, (List.range n).mapM (fun _ => f ()) = .ok bms ∧
        m = { beta := beta, loss_f := lf, base_models := bms,
              encoder_parameters :=
                (bms.map (fun vae => vae.encoder.parameters)).flatten,
              decoder_parameters :=
                (bms.map (fun vae => vae.decoder.parameters)).flatten } := by
    cases hb : (List.range n).mapM (fun _ => f ()) with
    | error e =>
      simp only [ABS.make, hb, except_bind_error] at hmk
      exact absurd hmk (by simp)
    | ok bms =>
      refine ⟨bms, rfl, ?_⟩
      simp only [ABS.make, hb, except_bind_ok, Except.ok.injEq] at hmk
      exact hmk.symm
  subst hm
  have hperm : List.Perm
      ((bms.map (fun vae => vae.encoder.parameters)).flatten ++
        (bms.map (fun vae => vae.decoder.parameters)).flatten)
      ((bms.map (fun vae => vae.encoder.parameters ++ vae.decoder.parameters)).flatten) :=
    flatten_map_append_perm bms _ _
  have hall : ABS.allParameters
      { beta := beta, loss_f := lf, base_models := bms,
        encoder_parameters := (bms.map (fun vae => vae.encoder.parameters)).flatten,
        decoder_parameters := (bms.map (fun vae => vae.decoder.parameters)).flatten } =
      (bms.map (fun vae => vae.encoder.parameters ++ vae.decoder.parameters)).flatten := rfl
  rw [hall] at hfresh
  have hnodup : ((bms.map (fun vae => vae.encoder.parameters)).flatten ++
      (bms.map (fun vae => vae.decoder.parameters)).flatten).Nodup :=
    (List.Perm.nodup hperm.symm) hfresh
  refine ⟨(List.nodup_append.mp hnodup).2.2, ?_⟩
  rw [hall]
  exact hperm

/-- Witness for C7 at a one-class ABS with fresh parameter ids. -/
theorem abs_parameter_partition_witness :
    abs0.encoder_parameters.Disjoint abs0.decoder_parameters ∧
    List.Perm (abs0.encoder_parameters ++ abs0.decoder_parameters)
      abs0.allParameters :=
  abs_parameter_partition 1 0 false 1 factory0 ("vae") abs0 (by rfl) (by decide)

/-! ### Evaluation of `ABS.forward` -/

/-- Stacking a nonempty list of equal-shaped tensors succeeds and
prepends the list length to the shape. -/
theorem torchStack_ok (ts : List Tensor) (s : List ℕ) (hne : ts ≠ [])
    (hsh : ∀ t ∈ ts, t.shape = s) :
    torchStack ts = .ok ⟨ts.length :: s, (ts.map Tensor.data).flatten⟩ := by
  cases ts with
  | nil => exact absurd rfl hne
  | cons t rest =>
    have ht : t.shape = s := hsh t (by simp)
    have hall : rest.all (fun u => u.shape == t.shape) = true := by
      rw [List.all_eq_true]
      intro u hu
      have hu' := hsh u (by simp [hu])
      simp [hu', ht]
    simp only [torchStack]
    rw [hall, if_pos rfl]
    simp [ht]

/-- When the per-class outputs have uniform component shapes and the losses
have uniform shape `sl` of rank 1, `ABS.forward` succeeds with the explicit
stacked tensors. -/
theorem forward_eval_ok (slf : LossFn) (noise : ℕ → Tensor) (m : ABS)
    (x : Tensor) (sr sm sv sl : List ℕ)
    (hne : ABS.outputs noise m x ≠ [])
    (hr : ∀ o ∈ ABS.outputs noise m x, o.1.shape = sr)
    (hmu : ∀ o ∈ ABS.outputs noise m x, o.2.1.shape = sm)
    (hv : ∀ o ∈ ABS.outputs noise m x, o.2.2.shape = sv)
    (hl : ∀ t ∈ ABS.losses slf noise m x, t.shape = sl)
    (hdim : sl.length = 1) :
    ABS.forward slf noise m x = .ok
      (Tensor.neg (Tensor.transpose01
        ⟨(ABS.outputs noise m x).length :: sl,
         ((ABS.losses slf noise m x).map Tensor.data).flatten⟩),
       ⟨(ABS.outputs noise m x).length :: sr,
        (((ABS.outputs noise m x).map (fun o => o.1)).map Tensor.data).flatten⟩,
       ⟨(ABS.outputs noise m x).length :: sm,
        (((ABS.outputs noise m x).map (fun o => o.2.1)).map Tensor.data).flatten⟩,
       ⟨(ABS.outputs noise m x).length :: sv,
        (((ABS.outputs noise m x).map (fun o => o.2.2)).map Tensor.data).flatten⟩) := by
  have hmapne : ∀ (f : Tensor × Tensor × Tensor → Tensor),
      (ABS.outputs noise m x).map f ≠ [] := by
    intro f h
    exact hne (List.map_eq_nil_iff.mp h)
  have h1 := torchStack_ok ((ABS.outputs noise m x).map (fun o => o.1)) sr
    (hmapne _) (by
      intro t ht
      obtain ⟨o, ho, rfl⟩ := List.mem_map.mp ht
      exact hr o ho)
  have h2 := torchStack_ok ((ABS.outputs noise m x).map (fun o => o.2.1)) sm
    (hmapne _) (by
      intro t ht
      obtain ⟨o, ho, rfl⟩ := List.mem_map.mp ht
      exact hmu o ho)
  have h3 := torchStack_ok ((ABS.outputs noise m x).map (fun o => o.2.2)) sv
    (hmapne _) (by
      intro t ht
      obtain ⟨o, ho, rfl⟩ := List.mem_map.mp ht
      exact hv o ho)
  have h4 := torchStack_ok (ABS.losses slf noise m x) sl
    (by
      intro h
      exact hne (List.map_eq_nil_iff.mp h)) hl
  rw [List.length_map] at h1 h2 h3
  have h5 : (ABS.losses slf noise m x).length = (ABS.outputs noise m x).length :=
    List.length_map _ _
  rw [h5] at h4
  simp only [ABS.forward, h1, h2, h3, h4, except_bind_ok]
  rw [if_pos (by simp [Tensor.dim, hdim])]

/-- When the losses have uniform shape `sl` of rank other than 1, the rank-2
assertion in `ABS.forward` fails. -/
theorem forward_eval_assert (slf : LossFn) (noise : ℕ → Tensor) (m : ABS)
    (x : Tensor) (sr sm sv sl : List ℕ)
    (hne : ABS.outputs noise m x ≠ [])
    (hr : ∀ o ∈ ABS.outputs noise m x, o.1.shape = sr)
    (hmu : ∀ o ∈ ABS.outputs noise m x, o.2.1.shape = sm)
    (hv : ∀ o ∈ ABS.outputs noise m x, o.2.2.shape = sv)
    (hl : ∀ t ∈ ABS.losses slf noise m x, t.shape = sl)
    (hdim : sl.length ≠ 1) :
    ABS.forward slf noise m x = .error .assertionError := by
  have hmapne : ∀ (f : Tensor × Tensor × Tensor → Tensor),
      (ABS.outputs noise m x).map f ≠ [] := by
    intro f h
    exact hne (List.map_eq_nil_iff.mp h)
  have h1 := torchStack_ok ((ABS.outputs noise m x).map (fun o => o.1)) sr
    (hmapne _) (by
      intro t ht
      obtain ⟨o, ho, rfl⟩ := List.mem_map.mp ht
      exact hr o ho)
  have h2 := torchStack_ok ((ABS.outputs noise m x).map (fun o => o.2.1)) sm
    (hmapne _) (by
      intro t ht
      obtain ⟨o, ho, rfl⟩ := List.mem_map.mp ht
      exact hmu o ho)
  have h3 := torchStack_ok ((ABS.outputs noise m x).map (fun o => o.2.2)) sv
    (hmapne _) (by
      intro t ht
      obtain ⟨o, ho, rfl⟩ := List.mem_map.mp ht
      exact hv o ho)
  have h4 := torchStack_ok (ABS.losses slf noise m x) sl
    (by
      intro h
      exact hne (List.map_eq_nil_iff.mp h)) hl
  simp only [ABS.forward, h1, h2, h3, h4, except_bind_ok]
  rw [if_neg (by simp [Tensor.dim]; omega)]

/-- The flat entry `(b, k)` of `transpose(0, 1)` of a rank-2 tensor of shape
`[L, B]` is the flat entry `(k, b)` of the input. -/
theorem transpose01_entry (L B : ℕ) (D : List ℝ) (k b : ℕ) (hk : k < L)
    (hb : b < B) :
    (Tensor.transpose01 ⟨[L, B], D⟩).data.getD (b * L + k) 0 =
      D.getD (k * B + b) 0 := by
  have hidx : b * L + k < B * L := by
    have h1 : b * L + L = (b + 1) * L := by ring
    have h2 : (b + 1) * L ≤ B * L := Nat.mul_le_mul_right L hb
    omega
  simp only [Tensor.transpose01, List.prod_nil, mul_one, Nat.div_one,
    Nat.mod_one, Nat.add_zero]
  rw [getD_range_map _ _ _ _ hidx]
  have e1 : (b * L + k) / L = b := by
    rw [Nat.add_comm, Nat.add_mul_div_right _ _ (by omega : 0 < L),
      Nat.div_eq_of_lt hk, Nat.zero_add]
  have e2 : (b * L + k) % L = k := by
    rw [Nat.add_comm, Nat.add_mul_mod_self_right, Nat.mod_eq_of_lt hk]
  rw [e1, e2]

/-- Entry of a negated tensor at an in-bounds index is the negated entry. -/
theorem neg_getD (t : Tensor) (i : ℕ) (h : i < t.data.length) :
    (Tensor.neg t).data.getD i 0 = -(t.data.getD i 0) :=
  getD_map _ _ _ _ 0 h

/-! ### Fixtures for the forward-pass witnesses -/

/-- A concrete one-entry input tensor. -/
def x0 : Tensor := ⟨[1], [0]⟩

/-- A concrete RNG stream. -/
def noise0 : ℕ → Tensor := fun _ => ⟨[1], [0]⟩

/-- A loss function returning a rank-1 per-sample loss for batch size 1. -/
def slf0 : LossFn := fun _ _ _ _ _ _ => ⟨[1], [0]⟩

/-- A malformed loss function returning a rank-0 (scalar) loss. -/
def slfBad : LossFn := fun _ _ _ _ _ _ => ⟨[], [0]⟩

/-- The outputs of the one-class fixture: the eval-mode VAE with identity
trunks reconstructs `sigmoid x0` with `mu = logvar = x0`. -/
theorem houts0 : ABS.outputs noise0 abs0 x0 = [(Tensor.sigmoid x0, x0, x0)] := rfl

/-- The fixture outputs list is nonempty. -/
theorem houts0_ne : ABS.outputs noise0 abs0 x0 ≠ [] := by
  rw [houts0]
  simp

/-- Reconstruction shapes of the fixture. -/
theorem hr0 : ∀ o ∈ ABS.outputs noise0 abs0 x0, o.1.shape = [1] := by
  intro o ho
  rw [houts0] at ho
  simp at ho
  subst ho
  rfl

/-- Mu shapes of the fixture. -/
theorem hmu0 : ∀ o ∈ ABS.outputs noise0 abs0 x0, o.2.1.shape = [1] := by
  intro o ho
  rw [houts0] at ho
  simp at ho
  subst ho
  rfl

/-- Logvar shapes of the fixture. -/
theorem hv0 : ∀ o ∈ ABS.outputs noise0 abs0 x0, o.2.2.shape = [1] := by
  intro o ho
  rw [houts0] at ho
  simp at ho
  subst ho
  rfl

/-- Loss shapes of the fixture under `slf0`. -/
theorem hl0 : ∀ t ∈ ABS.losses slf0 noise0 abs0 x0, t.shape = [1] := by
  intro t ht
  simp only [ABS.losses, houts0, List.map_cons, List.map_nil] at ht
  simp at ht
  subst ht
  rfl

/-- Loss data lengths of the fixture under `slf0`. -/
theorem hlen0 : ∀ t ∈ ABS.losses slf0 noise0 abs0 x0, t.data.length = 1 := by
  intro t ht
  simp only [ABS.losses, houts0, List.map_cons, List.map_nil] at ht
  simp at ht
  subst ht
  rfl

/-- Loss shapes of the fixture under the malformed `slfBad`. -/
theorem hlBad : ∀ t ∈ ABS.losses slfBad noise0 abs0 x0, t.shape = [] := by
  intro t ht
  simp only [ABS.losses, houts0, List.map_cons, List.map_nil] at ht
  simp at ht
  subst ht
  rfl

/-! ### Claims C1, C2, C8 -/

/-- C1: for an ABS ensemble with `n_classes = K` whose class-VAE outputs
stack (uniform shapes) and whose per-class losses are rank-1 of batch length
`B`, `forward` returns logits of shape `(B, K)` and stacked recs, mus and
logvars with leading dimension `K`. -/
theorem abs_forward_shapes (slf : LossFn) (noise : ℕ → Tensor) (m : ABS)
    (x : Tensor) (K B : ℕ) (sr sm sv : List ℕ)
    (hK : m.base_models.length = K) (hKpos : 0 < K)
    (hr : ∀ o ∈ ABS.outputs noise m x, o.1.shape = sr)
    (hmu : ∀ o ∈ ABS.outputs noise m x, o.2.1.shape = sm)
    (hv : ∀ o ∈ ABS.outputs noise m x, o.2.2.shape = sv)
    (hl : ∀ t ∈ ABS.losses slf noise m x, t.shape = [B]) :
    ∃ logits recs mus logvars,
      ABS.forward slf noise m x = .ok (logits, recs, mus, logvars) ∧
      logits.shape = [B, K] ∧ recs.shape = K :: sr ∧
      mus.shape = K :: sm ∧ logvars.shape = K :: sv := by
  have hlenK : (ABS.outputs noise m x).length = K := by
    rw [ABS.outputs, List.length_mapIdx, hK]
  have hne : ABS.outputs noise m x ≠ [] := by
    intro h
    rw [h] at hlenK
    simp at hlenK
    omega
  refine ⟨_, _, _, _,
    forward_eval_ok slf noise m x sr sm sv [B] hne hr hmu hv hl rfl,
    ?_, ?_, ?_, ?_⟩
  · simp [Tensor.neg, Tensor.emap, Tensor.transpose01, hlenK]
  · simp [hlenK]
  · simp [hlenK]
  · simp [hlenK]

/-- Witness for C1 at the one-class fixture with batch size 1. -/
theorem abs_forward_shapes_witness :
    ∃ logits recs mus logvars,
      ABS.forward slf0 noise0 abs0 x0 = .ok (logits, recs, mus, logvars) ∧
      logits.shape = [1, 1] ∧ recs.shape = 1 :: [1] ∧
      mus.shape = 1 :: [1] ∧ logvars.shape = 1 :: [1] :=
  abs_forward_shapes slf0 noise0 abs0 x0 1 1 [1] [1] [1] rfl (by decide)
    hr0 hmu0 hv0 hl0

/-- C2: under the same stacking preconditions, every logit entry
`logits[b][k]` is the negated per-sample loss of class `k` on sample `b`:
the samplewise loss function applied to `x` and the detached
`(reconstruction, mu, logvar)` of the `k`-th class VAE with weight `beta` and the
configured loss kind. -/
theorem abs_forward_logits_negated_losses (slf : LossFn) (noise : ℕ → Tensor)
    (m : ABS) (x : Tensor) (K B : ℕ) (sr sm sv : List ℕ)
    (hK : m.base_models.length = K) (hKpos : 0 < K)
    (hr : ∀ o ∈ ABS.outputs noise m x, o.1.shape = sr)
    (hmu : ∀ o ∈ ABS.outputs noise m x, o.2.1.shape = sm)
    (hv : ∀ o ∈ ABS.outputs noise m x, o.2.2.shape = sv)
    (hl : ∀ t ∈ ABS.losses slf noise m x, t.shape = [B])
    (hlen : ∀ t ∈ ABS.losses slf noise m x, t.data.length = B) :
    ∃ logits recs mus logvars,
      ABS.forward slf noise m x = .ok (logits, recs, mus, logvars) ∧
      ∀ b k o, b < B → k < K → (ABS.outputs noise m x)[k]? = some o →
        logits.data.getD (b * K + k) 0 =
          -((slf x o.1.detach o.2.1.detach o.2.2.detach m.beta
              m.loss_f).data.getD b 0) := by
  have hlenK : (ABS.outputs noise m x).length = K := by
    rw [ABS.outputs, List.length_mapIdx, hK]
  have hne : ABS.outputs noise m x ≠ [] := by
    intro h
    rw [h] at hlenK
    simp at hlenK
    omega
  refine ⟨_, _, _, _,
    forward_eval_ok slf noise m x sr sm sv [B] hne hr hmu hv hl rfl, ?_⟩
  intro b k o hb hkK ho
  rw [hlenK]
  have hbound : b * K + k < B * K := by
    have h1 : b * K + K = (b + 1) * K := by ring
    have h2 : (b + 1) * K ≤ B * K := Nat.mul_le_mul_right K hb
    omega
  rw [neg_getD _ _ (by
    simp only [Tensor.transpose01, List.prod_nil, mul_one, List.length_map,
      List.length_range]
    exact hbound)]
  rw [transpose01_entry K B _ k b hkK hb]
  congr 1
  have hblocks : ∀ l ∈ (ABS.losses slf noise m x).map Tensor.data,
      l.length = B := by
    intro l hlm
    obtain ⟨t, ht, rfl⟩ := List.mem_map.mp hlm
    exact hlen t ht
  have hkL : k < ((ABS.losses slf noise m x).map Tensor.data).length := by
    rw [List.length_map, ABS.losses, List.length_map, hlenK]
    exact hkK
  rw [getD_flatten_blocks _ B hblocks k b hkL hb]
  have hlossk : (ABS.losses slf noise m x)[k]? =
      some (slf x o.1.detach o.2.1.detach o.2.2.detach m.beta m.loss_f) := by
    rw [ABS.losses, List.getElem?_map, ho]
    rfl
  have hinner : ((ABS.losses slf noise m x).map Tensor.data).getD k [] =
      (slf x o.1.detach o.2.1.detach o.2.2.detach m.beta m.loss_f).data := by
    rw [List.getD_eq_getElem?_getD, List.getElem?_map, hlossk]
    rfl
  rw [hinner]

/-- Witness for C2 at the one-class fixture. -/
theorem abs_forward_logits_negated_losses_witness :
    ∃ logits recs mus logvars,
      ABS.forward slf0 noise0 abs0 x0 = .ok (logits, recs, mus, logvars) ∧
      ∀ b k o, b < 1 → k < 1 → (ABS.outputs noise0 abs0 x0)[k]? = some o →
        logits.data.getD (b * 1 + k) 0 =
          -((slf0 x0 o.1.detach o.2.1.detach o.2.2.detach abs0.beta
              abs0.loss_f).data.getD b 0) :=
  abs_forward_logits_negated_losses slf0 noise0 abs0 x0 1 1 [1] [1] [1] rfl
    (by decide) hr0 hmu0 hv0 hl0 hlen0

/-- C8: with uniformly shaped per-class losses, the stacked loss tensor is
rank 2 and the assertion passes exactly when the losses are rank 1; for any
other uniform rank, `forward` aborts with the assertion failure. -/
theorem abs_loss_rank_assertion (slf : LossFn) (noise : ℕ → Tensor) (m : ABS)
    (x : Tensor) (sr sm sv sl : List ℕ)
    (hne : ABS.outputs noise m x ≠ [])
    (hr : ∀ o ∈ ABS.outputs noise m x, o.1.shape = sr)
    (hmu : ∀ o ∈ ABS.outputs noise m x, o.2.1.shape = sm)
    (hv : ∀ o ∈ ABS.outputs noise m x, o.2.2.shape = sv)
    (hl : ∀ t ∈ ABS.losses slf noise m x, t.shape = sl) :
    (sl.length = 1 →
      ∃ lt, torchStack (ABS.losses slf noise m x) = .ok lt ∧ lt.dim = 2 ∧
        ∃ out, ABS.forward slf noise m x = .ok out) ∧
    (sl.length ≠ 1 → ABS.forward slf noise m x = .error .assertionError) := by
  constructor
  · intro h1
    refine ⟨_, torchStack_ok _ sl (by
      intro h
      exact hne (List.map_eq_nil_iff.mp h)) hl, ?_, ?_⟩
    · simp [Tensor.dim, h1]
    · exact ⟨_, forward_eval_ok slf noise m x sr sm sv sl hne hr hmu hv hl h1⟩
  · intro h1
    exact forward_eval_assert slf noise m x sr sm sv sl hne hr hmu hv hl h1

/-- Witness for C8: the rank-1 loss function passes the assertion and the
rank-0 loss function makes `forward` abort with the assertion failure. -/
theorem abs_loss_rank_assertion_witness :
    (∃ lt, torchStack (ABS.losses slf0 noise0 abs0 x0) = .ok lt ∧
      lt.dim = 2 ∧ ∃ out, ABS.forward slf0 noise0 abs0 x0 = .ok out) ∧
    ABS.forward slfBad noise0 abs0 x0 = .error .assertionError := by
  constructor
  · exact (abs_loss_rank_assertion slf0 noise0 abs0 x0 [1] [1] [1] [1]
      houts0_ne hr0 hmu0 hv0 hl0).1 rfl
  · exact (abs_loss_rank_assertion slfBad noise0 abs0 x0 [1] [1] [1] []
      houts0_ne hr0 hmu0 hv0 hlBad).2 (by decide)

end AbsSynth
